import Mathlib

/-!
# Verification of the FemaleFoundersFeed aggregator pipeline

Shallow embedding of `aggregator/aggregator.py`: the scoring/filtering
pipeline (keyword matching, weighted scoring, exclusion, age cutoff,
dedup, ordering) and the press-page link-extraction heuristic.

Modelling conventions:
* Time instants are `Int` microseconds since the Unix epoch (matching the
  microsecond resolution of Python `datetime`); `timedelta(minutes=i)` is
  `minuteUs * i` and `timedelta(days=d)` is `dayUs * d`.
* A compiled regular expression (`re.compile(...)`) is modelled by its
  `search` function `String → Bool`; the `re` library is a collaborator.
  A concrete literal pattern corresponds to a substring test.
* `hashlib.sha256(f"{link}|{title}").hexdigest()` is modelled by the
  pre-image string `link ++ "|" ++ title`: SHA-256 is a deterministic
  function of that string, so equality of the modelled identity coincides
  with equality of the digest for all inputs relevant here.
* `urllib.parse.urlparse` of an absolute URL is modelled by a `Url`
  record carrying the raw string together with its `netloc` (`host`) and
  `path` components; `urljoin`/BeautifulSoup anchor extraction are
  collaborators whose result is the anchor list handed to the scraper.
* Network fetching is a collaborator: a fetch result is `Option` data
  (`none` models `requests.get`/`raise_for_status` failing).
* An emitted `published` field is represented by `Pub`: `Pub.iso t` is
  the `isoformat()` rendering of the aware instant `t` (which
  `datetime.fromisoformat` parses back to `t`), and `Pub.raw s` is a
  string on which `datetime.fromisoformat` raises.
-/

set_option linter.unusedVariables false

/-- Microseconds since the Unix epoch. -/
abbrev Time := Int

/-- Python `str.strip()`: drop whitespace from both ends. -/
def pyStrip (s : String) : String :=
  ⟨((s.data.dropWhile Char.isWhitespace).reverse.dropWhile Char.isWhitespace).reverse⟩

/-- Python `str.lower()` on the characters of the string. -/
def pyLower (s : String) : String :=
  ⟨s.data.map Char.toLower⟩

/-- Python `str.startswith(pat)`. -/
def pyStartsWith (s pat : String) : Bool :=
  pat.data.isPrefixOf s.data

/-- Python `str.endswith(pat)`. -/
def pyEndsWith (s pat : String) : Bool :=
  pat.data.isSuffixOf s.data

/-- Python slicing `s[n:]`. -/
def pyDrop (s : String) (n : Nat) : String :=
  ⟨s.data.drop n⟩

/-- The longest initial segment of characters satisfying `p`. -/
def pyTakeWhile (s : String) (p : Char → Bool) : String :=
  ⟨s.data.takeWhile p⟩

/-- Python `str.rstrip("/")`: drop trailing occurrences of `c`. -/
def pyRstrip (s : String) (c : Char) : String :=
  ⟨(s.data.reverse.dropWhile (fun d => d == c)).reverse⟩

/-- Microseconds in one minute (`timedelta(minutes=1)`). -/
def minuteUs : Int := 60000000

/-- Microseconds in one day (`timedelta(days=1)`). -/
def dayUs : Int := 86400000000

/-- A compiled regex modelled by its `search` function. -/
abbrev Matcher := String → Bool

/-- The three compiled category matchers (`regs` dict in `main`); `none`
models `compile_or_none` returning `None` for an empty keyword list. -/
structure Regs where
  gender : Option Matcher
  startup : Option Matcher
  business : Option Matcher

/-- Resolved scoring weights: `weights.get(key, default)` values. -/
structure Weights where
  gender : Int
  startup : Int
  business : Int
  title_bonus : Int
  deriving DecidableEq, Repr

/-- `hash_id(link, title)`: SHA-256 hexdigest of `f"{link}|{title}"`,
modelled by the pre-image string (see module docstring). -/
def hash_id (link title : String) : String :=
  link ++ "|" ++ title

/-- Truthiness of `reg and reg.search(s)` for an optional matcher. -/
def matchesOpt (m : Option Matcher) (s : String) : Bool :=
  match m with
  | some r => r s
  | none => false

/-- `score_item(title, summary, regs, weights)` from the source. -/
def score_item (title summary : String) (regs : Regs) (weights : Weights) : Int :=
  let hay := title ++ "\n" ++ summary
  let score : Int := 0
  let score := match regs.gender with
    | some rg =>
      if rg hay then score + weights.gender + (if rg title then weights.title_bonus else 0)
      else score
    | none => score
  let score := match regs.startup with
    | some rs =>
      if rs hay then score + weights.startup + (if rs title then weights.title_bonus else 0)
      else score
    | none => score
  let score := match regs.business with
    | some rb =>
      if rb hay then score + weights.business + (if rb title then weights.title_bonus else 0)
      else score
    | none => score
  score

/-- `is_excluded(title, summary, rx_exclude)` from the source. -/
def is_excluded (title summary : String) (rx_exclude : Option Matcher) : Bool :=
  match rx_exclude with
  | none => false
  | some rx => rx (title ++ "\n" ++ summary)

/-- A parsed absolute URL: the raw string plus the `urlparse` components
the source reads (`netloc` as `host`, `path`). -/
structure Url where
  raw : String
  host : String
  path : String
  deriving DecidableEq, Repr

/-- Strip a leading `www.` (the `host[4:]` branch of `domain_of`). -/
def stripWww (host : String) : String :=
  if pyStartsWith host "www." then pyDrop host 4 else host

/-- `domain_of(u)`: lower-cased netloc with a leading `www.` stripped. -/
def domain_of (u : Url) : String :=
  stripWww (pyLower u.host)

/-- `urlparse("https://" + d).netloc`: the configured domain up to the
first `/`, `?` or `#`. -/
def netlocOfHttps (d : String) : String :=
  pyTakeWhile d (fun c => (c != '/') && (c != '?') && (c != '#'))

/-- `domain_of("https://" + expected_domain)` in the scraper. -/
def domainOfConfigured (d : String) : String :=
  stripWww (pyLower (netlocOfHttps d))

/-- One anchor of the fetched page after `absolute_links`: the absolute
URL and the anchor's visible text. -/
structure Anchor where
  url : Url
  text : String
  deriving DecidableEq, Repr

/-- An `Article` record as accumulated in `entries` and serialized. -/
inductive Pub where
  | iso (t : Time)
  | raw (s : String)
  deriving DecidableEq, Repr

structure Article where
  title : String
  link : String
  summary : String
  published : Pub
  source : String
  deriving DecidableEq, Repr

/-- One press-page configuration entry together with its fetch result
(`none` models the `requests.get`/`raise_for_status` failure path). -/
structure PressPage where
  page_url : Url
  domain : String
  max_items : Nat
  href_include : Option Matcher
  href_exclude : Option Matcher
  allow_pdf : Bool
  fetch : Option (List Anchor)

/-- `Python "needle in hay"` substring membership. -/
def strContains (hay pat : String) : Bool :=
  decide (pat.toList <:+: hay.toList)

/-- The per-anchor filter of `scrape_press_page`: same domain, no noise
markers, no PDF unless allowed, visible text of length at least 6, path
accepted by `href_include` (else the base-path fallback), and path not
matched by `href_exclude`. -/
def press_pass (p : PressPage) (base_path : String) (a : Anchor) : Bool :=
  let absu_lower := pyLower a.url.raw
  let path := pyLower a.url.path
  (if p.domain != "" then
    (domain_of a.url == domainOfConfigured p.domain) || (domain_of a.url == p.domain)
  else true) &&
  !(strContains absu_lower "/wp-json" || strContains absu_lower "/feed" ||
    strContains absu_lower "mailto:" || strContains absu_lower "tel:") &&
  (p.allow_pdf || !(pyEndsWith absu_lower ".pdf")) &&
  (decide (6 ≤ a.text.length)) &&
  (match p.href_include with
   | some inc => inc path
   | none => pyStartsWith path base_path || strContains path base_path) &&
  (match p.href_exclude with
   | some exc => !(exc path)
   | none => true)

/-- The filtering loop of `scrape_press_page`: keep passing anchors,
deduplicating on the `(absu, text)` key, preserving first-seen order. -/
def press_filter (p : PressPage) (base_path : String)
    (seen : List (String × String)) (anchors : List Anchor) : List Anchor :=
  match anchors with
  | [] => []
  | a :: rest =>
    if press_pass p base_path a then
      if (a.url.raw, a.text) ∈ seen then press_filter p base_path seen rest
      else a :: press_filter p base_path ((a.url.raw, a.text) :: seen) rest
    else press_filter p base_path seen rest

/-- The record built for the kept anchor at 0-based position `idx`:
synthetic timestamp `now - timedelta(minutes=idx)`. -/
def mkPressArticle (p : PressPage) (now : Time) (idx : Nat) (a : Anchor) : Article :=
  { title := a.text
    link := a.url.raw
    summary := ""
    published := Pub.iso (now - minuteUs * (idx : Int))
    source := if p.domain != "" then p.domain else domain_of a.url }

/-- The `for idx, (absu, text) in enumerate(filtered)` stamping loop. -/
def stamp_items (p : PressPage) (now : Time) (idx : Nat) (anchors : List Anchor) : List Article :=
  match anchors with
  | [] => []
  | a :: rest => mkPressArticle p now idx a :: stamp_items p now (idx + 1) rest

/-- `scrape_press_page` from the source: on fetch failure return `[]`;
otherwise filter the anchors, truncate to `max_items`, and assign the
synthetic descending timestamps. -/
def scrape_press_page (p : PressPage) (now : Time) : List Article :=
  match p.fetch with
  | none => []
  | some anchors =>
    let base_path := pyRstrip p.page_url.path '/'
    let filtered := press_filter p base_path [] anchors
    let filtered := filtered.take p.max_items
    stamp_items p now 0 filtered

/-- One raw feed entry as the source reads it: `e.get(...) or ""` string
fields and the optional structured timestamps. -/
structure FeedEntry where
  title : String
  link : String
  summary : String
  published_parsed : Option Time
  updated_parsed : Option Time
  deriving DecidableEq, Repr

/-- One successfully parsed feed: its request URL, declared title and
link (empty string when absent or falsy), and its entries. -/
structure Feed where
  url : String
  feed_title : String
  feed_link : String
  entries : List FeedEntry

/-- The run configuration after `load_config` defaults and the local
bindings of `main` (compiled matchers, resolved integers, `now`). -/
structure Cfg where
  regs : Regs
  rx_exclude : Option Matcher
  weights : Weights
  min_score : Int
  max_age_days : Int
  curated_mode : Bool
  export_limit : Nat
  now : Time

/-- `cutoff = datetime.now(timezone.utc) - timedelta(days=max_age_days)`. -/
def cutoffT (cfg : Cfg) : Time :=
  cfg.now - dayUs * cfg.max_age_days

/-- The robust timestamp: `published_parsed or updated_parsed`, falling
back to the current instant. -/
def entry_ts (cfg : Cfg) (e : FeedEntry) : Time :=
  match e.published_parsed with
  | some t => t
  | none =>
    match e.updated_parsed with
    | some t => t
    | none => cfg.now

/-- `parsed.feed.get("title") or parsed.feed.get("link") or url`. -/
def feed_source (f : Feed) : String :=
  if f.feed_title != "" then f.feed_title
  else if f.feed_link != "" then f.feed_link
  else f.url

/-- The dict appended to `entries` for an accepted feed entry. -/
def mkFeedArticle (cfg : Cfg) (f : Feed) (e : FeedEntry) : Article :=
  { title := pyStrip e.title
    link := pyStrip e.link
    summary := e.summary
    published := Pub.iso (entry_ts cfg e)
    source := feed_source f }

/-- All pre-dedup gates of the feed loop, in source order: non-empty
trimmed title and link, age cutoff, exclusion, and (non-curated only)
the score threshold and the mandatory gender match. -/
def feed_gate (cfg : Cfg) (e : FeedEntry) : Bool :=
  let title := pyStrip e.title
  let link := pyStrip e.link
  (title != "") && (link != "") &&
  !(decide (entry_ts cfg e < cutoffT cfg)) &&
  !(is_excluded title e.summary cfg.rx_exclude) &&
  (if cfg.curated_mode then true
   else (decide (cfg.min_score ≤ score_item title e.summary cfg.regs cfg.weights)) &&
     matchesOpt cfg.regs.gender (title ++ "\n" ++ e.summary))

/-- One candidate item of the run: a feed entry (with its feed, for the
`source` fallback chain) or one record returned by the press scraper. -/
inductive Cand where
  | feedC (f : Feed) (e : FeedEntry)
  | pressC (a : Article)

/-- The pre-dedup gate for a candidate: the feed gates for feed entries,
only the exclusion gate for press items. -/
def candGate (cfg : Cfg) : Cand → Bool
  | Cand.feedC _ e => feed_gate cfg e
  | Cand.pressC a => !(is_excluded a.title a.summary cfg.rx_exclude)

/-- The Article a passing candidate would append. -/
def candArticle (cfg : Cfg) : Cand → Article
  | Cand.feedC f e => mkFeedArticle cfg f e
  | Cand.pressC a => a

/-- The identity of an accumulated Article: `hash_id(link, title)`. -/
def entryId (a : Article) : String :=
  hash_id a.link a.title

/-- The identity a candidate is deduplicated on (`_id` in `main`). -/
def candId (cfg : Cfg) (c : Cand) : String :=
  entryId (candArticle cfg c)

/-- The accumulating state of `main`: the `ids` seen-set (modelled as a
list) and the `entries` list. -/
structure St where
  ids : List String
  entries : List Article

/-- One iteration of the accumulation loops of `main`: skip if a gate
fails, skip if the identity was seen, else record the identity and
append the Article. -/
def step (cfg : Cfg) (st : St) (c : Cand) : St :=
  if candGate cfg c then
    let i := candId cfg c
    if i ∈ st.ids then st
    else { ids := i :: st.ids, entries := st.entries ++ [candArticle cfg c] }
  else st

/-- The full candidate stream of a run, in processing order: all entries
of the successfully parsed feeds, then every record produced by the
press scraper for each configured page. -/
def candidates (cfg : Cfg) (feeds : List (Option Feed)) (pages : List PressPage) : List Cand :=
  ((feeds.filterMap id).flatMap (fun f => f.entries.map (Cand.feedC f))) ++
  (pages.flatMap (fun p => (scrape_press_page p cfg.now).map Cand.pressC))

/-- The accumulated `entries` of a run, before sorting and truncation. -/
def run_entries (cfg : Cfg) (feeds : List (Option Feed)) (pages : List PressPage) : List Article :=
  (List.foldl (step cfg) { ids := [], entries := [] } (candidates cfg feeds pages)).entries

/-- `ts_key`: parse the stored `published`; a parse failure yields the
epoch `datetime(1970, 1, 1)`, i.e. instant `0`. -/
def ts_key (a : Article) : Time :=
  match a.published with
  | Pub.iso t => t
  | Pub.raw _ => 0

/-- The descending sort-key order: `a` may precede `b` when
`ts_key b ≤ ts_key a`. -/
def keyGe (a b : Article) : Prop := ts_key b ≤ ts_key a

instance : DecidableRel keyGe := fun a b => Int.decLe _ _

instance : IsTotal Article keyGe := ⟨fun a b => Int.le_total _ _⟩

instance : IsTrans Article keyGe := ⟨fun a b c h1 h2 => le_trans h2 h1⟩

/-- `entries.sort(key=ts_key, reverse=True)`: Python's sort is stable,
and a stable sort by a total preorder on keys has a unique result, so it
is modelled by the stable insertion sort, newest first. -/
def sortDesc (es : List Article) : List Article :=
  List.insertionSort keyGe es

/-- The emitted collection: sort newest first, truncate to
`export_limit`. -/
def output (cfg : Cfg) (feeds : List (Option Feed)) (pages : List PressPage) : List Article :=
  (sortDesc (run_entries cfg feeds pages)).take cfg.export_limit

/-! ## Claim C2: the scorer -/

/-- Spec-side category contribution (spec section 4.2): if the category's
matcher exists and matches the combined title+summary, add the weight,
plus `title_bonus` once more when the title alone also matches;
otherwise 0. -/
def catScoreSpec (m : Option Matcher) (w bonus : Int) (title summary : String) : Int :=
  match m with
  | none => 0
  | some r =>
    if r (title ++ "\n" ++ summary) then w + (if r title then bonus else 0) else 0

/-- C2: `score_item` equals the sum over the categories gender, startup
and business of the category's weight when that category's matcher
exists and matches the combined title+summary, plus one `title_bonus`
per category whose matcher also matches the title alone (so up to three
title bonuses); an absent or non-matching category contributes 0. As a
Lean function of exactly these inputs it is deterministic and pure. -/
theorem score_item_is_sum_of_category_contributions
    (title summary : String) (regs : Regs) (w : Weights) :
    score_item title summary regs w =
      catScoreSpec regs.gender w.gender w.title_bonus title summary +
      catScoreSpec regs.startup w.startup w.title_bonus title summary +
      catScoreSpec regs.business w.business w.title_bonus title summary := by
  obtain ⟨g, s, b⟩ := regs
  simp only [score_item, catScoreSpec]
  cases g <;> cases s <;> cases b <;> simp <;> split_ifs <;> ring

/-! ## Claim C7: press items face only the exclusion gate and dedup -/

/-- C7: a record returned by the press scraper is accumulated iff the
exclude matcher does not match its title+summary and its
`hash_id(link, title)` identity has not been seen this run; score and
gender matching do not occur in this gate. -/
theorem press_item_accumulated_iff (cfg : Cfg) (st : St) (a : Article) :
    (step cfg st (Cand.pressC a)).entries = st.entries ++ [a] ↔
      (is_excluded a.title a.summary cfg.rx_exclude = false ∧
        hash_id a.link a.title ∉ st.ids) := by
  by_cases hex : is_excluded a.title a.summary cfg.rx_exclude <;>
    by_cases hid : hash_id a.link a.title ∈ st.ids <;>
      simp [step, candGate, candArticle, candId, entryId, hex, hid]

/-! ## Claim C5: truncation -/

/-- C5: the emitted collection's length is the minimum of the number of
items that survived filtering and dedup and `export_limit`. -/
theorem output_length_eq_min (cfg : Cfg) (feeds : List (Option Feed))
    (pages : List PressPage) :
    (output cfg feeds pages).length =
      min (run_entries cfg feeds pages).length cfg.export_limit := by
  simp [output, sortDesc]
  omega

/-! ## Claim C1: inclusion of a feed entry in non-curated mode -/

/-- C1: in non-curated mode, a feed entry with non-empty trimmed title
and link whose resolved timestamp is not older than the cutoff is
included iff the exclude matcher does not match the combined
title+summary, the gender matcher matches it, the score reaches
`min_score`, and its identity has not been seen this run. -/
theorem feed_entry_included_iff (cfg : Cfg) (f : Feed) (e : FeedEntry) (st : St)
    (hcur : cfg.curated_mode = false)
    (htitle : (pyStrip e.title) ≠ "") (hlink : (pyStrip e.link) ≠ "")
    (hage : ¬ entry_ts cfg e < cutoffT cfg) :
    (step cfg st (Cand.feedC f e)).entries = st.entries ++ [mkFeedArticle cfg f e] ↔
      (is_excluded (pyStrip e.title) e.summary cfg.rx_exclude = false ∧
        matchesOpt cfg.regs.gender ((pyStrip e.title) ++ "\n" ++ e.summary) = true ∧
        cfg.min_score ≤ score_item (pyStrip e.title) e.summary cfg.regs cfg.weights ∧
        candId cfg (Cand.feedC f e) ∉ st.ids) := by
  have ht : ((pyStrip e.title) != "") = true := by simpa using htitle
  have hl : ((pyStrip e.link) != "") = true := by simpa using hlink
  by_cases hex : is_excluded (pyStrip e.title) e.summary cfg.rx_exclude <;>
    by_cases hg : matchesOpt cfg.regs.gender ((pyStrip e.title) ++ "\n" ++ e.summary) <;>
      by_cases hs : cfg.min_score ≤ score_item (pyStrip e.title) e.summary cfg.regs cfg.weights <;>
        by_cases hid : candId cfg (Cand.feedC f e) ∈ st.ids <;>
          simp [step, candGate, feed_gate, candArticle, hcur, ht, hl, hage, hex, hg, hs, hid]

/-- Concrete gender matcher for the C1 witness: `re.search` of the
literal pattern `woman` under `re.IGNORECASE`. -/
def c1wGender : Matcher := fun s => strContains (pyLower s) "woman"

/-- Concrete startup matcher for the C1 witness. -/
def c1wStartup : Matcher := fun s => strContains (pyLower s) "startup"

/-- Matcher set for the C1 witness. -/
def c1wRegs : Regs :=
  { gender := some c1wGender, startup := some c1wStartup, business := none }

/-- Default weights from `load_config`. -/
def defaultWeights : Weights :=
  { gender := 2, startup := 2, business := 1, title_bonus := 1 }

/-- Configuration for the C1 witness run. -/
def c1wCfg : Cfg :=
  { regs := c1wRegs
    rx_exclude := none
    weights := defaultWeights
    min_score := 2
    max_age_days := 120
    curated_mode := false
    export_limit := 200
    now := 1700000000000000 }

/-- A feed entry for the C1 witness. -/
def c1wEntry : FeedEntry :=
  { title := "Woman launches startup"
    link := "https://example.com/a"
    summary := ""
    published_parsed := some 1700000000000000
    updated_parsed := none }

/-- A feed for the C1 witness. -/
def c1wFeed : Feed :=
  { url := "https://example.com/rss.xml", feed_title := "Example", feed_link := "",
    entries := [c1wEntry] }

/-- Witness for C1: at the concrete entry "Woman launches startup" every
hypothesis holds and the entry is included. -/
theorem feed_entry_included_iff_witness :
    (step c1wCfg { ids := [], entries := [] } (Cand.feedC c1wFeed c1wEntry)).entries =
      [] ++ [mkFeedArticle c1wCfg c1wFeed c1wEntry] :=
  (feed_entry_included_iff c1wCfg c1wFeed c1wEntry { ids := [], entries := [] }
      rfl (by decide) (by decide) (by decide)).mpr
    ⟨by decide, by decide, by decide, by decide⟩

/-! ## Claim C10: the identity hash is not injective on (link, title) -/

/-- Configuration for the C10 collapse run (curated mode, no matchers,
so both candidate entries pass every gate). -/
def c10Cfg : Cfg :=
  { regs := { gender := none, startup := none, business := none }
    rx_exclude := none
    weights := defaultWeights
    min_score := 2
    max_age_days := 120
    curated_mode := true
    export_limit := 200
    now := 1700000000000000 }

/-- First C10 entry: link `a|b`, title `c`. -/
def c10e1 : FeedEntry :=
  { title := "c", link := "a|b", summary := ""
    published_parsed := some 1700000000000000, updated_parsed := none }

/-- Second C10 entry: link `a`, title `b|c` — a different pair with the
same combined identity string. -/
def c10e2 : FeedEntry :=
  { title := "b|c", link := "a", summary := ""
    published_parsed := some 1700000000000000, updated_parsed := none }

/-- The feed carrying both C10 entries. -/
def c10Feed : Feed :=
  { url := "u", feed_title := "t", feed_link := "", entries := [c10e1, c10e2] }

/-- C10: the identity is computed over `link + "|" + title`, so the
distinct pairs `("a|b", "c")` and `("a", "b|c")` share one identity, and
a run containing both items accumulates only the first as an Article
even though their link and title differ. -/
theorem hash_id_not_injective_on_pairs :
    (("a|b", "c") ≠ ("a", "b|c")) ∧
    hash_id "a|b" "c" = hash_id "a" "b|c" ∧
    run_entries c10Cfg [some c10Feed] [] = [mkFeedArticle c10Cfg c10Feed c10e1] := by
  refine ⟨by decide, rfl, ?_⟩
  decide

/-! ## Claim C4: ordering of the emitted collection -/

/-- C4 (amended): the emitted collection is sorted by the parsed
`published` key in non-increasing order (so an article whose key is
strictly greater than another's appears strictly earlier, while equal
keys keep their accumulated order); the sort step drops no article — it
permutes the accumulated entries — and an article whose `published`
fails to parse receives the epoch sort key `0`. -/
theorem output_sorted_descending (cfg : Cfg) (feeds : List (Option Feed))
    (pages : List PressPage) :
    (output cfg feeds pages).Pairwise keyGe ∧
    (sortDesc (run_entries cfg feeds pages)).Perm (run_entries cfg feeds pages) ∧
    (∀ t l s r src, ts_key (Article.mk t l s (Pub.raw r) src) = 0) := by
  refine ⟨?_, List.perm_insertionSort keyGe _, fun t l s r src => rfl⟩
  exact List.Pairwise.sublist (List.take_sublist _ _)
    (List.sorted_insertionSort keyGe (run_entries cfg feeds pages))

/-- Configuration of the C4 counterexample run: curated mode, so both
feed entries pass the gates. -/
def c4Cfg : Cfg :=
  { regs := { gender := none, startup := none, business := none }
    rx_exclude := none
    weights := defaultWeights
    min_score := 2
    max_age_days := 120
    curated_mode := true
    export_limit := 200
    now := 1700000000000000 }

/-- First C4 entry, published at instant 1700000000000000. -/
def c4e1 : FeedEntry :=
  { title := "Alpha", link := "https://example.com/a", summary := ""
    published_parsed := some 1700000000000000, updated_parsed := none }

/-- Second C4 entry, published at the same instant. -/
def c4e2 : FeedEntry :=
  { title := "Beta", link := "https://example.com/b", summary := ""
    published_parsed := some 1700000000000000, updated_parsed := none }

/-- The feed carrying the two C4 entries. -/
def c4Feed : Feed :=
  { url := "u4", feed_title := "t4", feed_link := "", entries := [c4e1, c4e2] }

/-- C4 counterexample: in this run the emitted collection places the
article `Alpha` before the distinct article `Beta`, yet `Alpha`'s
`published` is not greater — both parse to the same instant — so
"A appears before B iff A.published > B.published" fails at this input
(the left side holds, the right side does not). -/
theorem output_order_iff_counterexample :
    output c4Cfg [some c4Feed] [] =
      [mkFeedArticle c4Cfg c4Feed c4e1, mkFeedArticle c4Cfg c4Feed c4e2] ∧
    mkFeedArticle c4Cfg c4Feed c4e1 ≠ mkFeedArticle c4Cfg c4Feed c4e2 ∧
    ¬ ts_key (mkFeedArticle c4Cfg c4Feed c4e2) < ts_key (mkFeedArticle c4Cfg c4Feed c4e1) := by
  exact ⟨by decide, by decide, by decide⟩

/-! ## Claim C8: a press-page fetch failure is soft -/

/-- C8: when fetching a press page fails, the scraper returns the empty
list, and the emitted collection of the run equals that of the same run
without the failing page: the page contributes zero items and the run
continues. (The warning line written to stderr is process I/O outside
this model.) -/
theorem press_fetch_failure_soft (p : PressPage) (hp : p.fetch = none) (now : Time)
    (cfg : Cfg) (feeds : List (Option Feed)) (pre post : List PressPage) :
    scrape_press_page p now = [] ∧
    output cfg feeds (pre ++ p :: post) = output cfg feeds (pre ++ post) := by
  have hs : ∀ t : Time, scrape_press_page p t = [] := by
    intro t; simp [scrape_press_page, hp]
  refine ⟨hs now, ?_⟩
  have hc : candidates cfg feeds (pre ++ p :: post) = candidates cfg feeds (pre ++ post) := by
    simp [candidates, hs]
  simp [output, run_entries, hc]

/-- A press page whose fetch failed, for the C8 witness. -/
def c8Page : PressPage :=
  { page_url := { raw := "https://example.com/presse", host := "example.com", path := "/presse" }
    domain := "example.com"
    max_items := 30
    href_include := none
    href_exclude := none
    allow_pdf := false
    fetch := none }

/-- Configuration for the C8 witness run. -/
def c8Cfg : Cfg :=
  { regs := { gender := none, startup := none, business := none }
    rx_exclude := none
    weights := defaultWeights
    min_score := 2
    max_age_days := 120
    curated_mode := false
    export_limit := 200
    now := 1700000000000000 }

/-- Witness for C8 at a concrete failing page. -/
theorem press_fetch_failure_soft_witness :
    scrape_press_page c8Page 1700000000000000 = [] ∧
    output c8Cfg [] ([] ++ c8Page :: []) = output c8Cfg [] ([] ++ []) :=
  press_fetch_failure_soft c8Page rfl 1700000000000000 c8Cfg [] [] []

/-! ## Claim C6: the age gate -/

/-- Every accumulated entry is an initial entry or the Article of some
gate-passing candidate of the stream. -/
theorem mem_foldl_entries (cfg : Cfg) (cs : List Cand) (st : St) (a : Article)
    (ha : a ∈ (List.foldl (step cfg) st cs).entries) :
    a ∈ st.entries ∨ ∃ c ∈ cs, candGate cfg c = true ∧ a = candArticle cfg c := by
  induction cs generalizing st with
  | nil => exact Or.inl ha
  | cons c rest ih =>
    simp only [List.foldl_cons] at ha
    rcases ih _ ha with h | ⟨c', hc', hg, he⟩
    · by_cases hgc : candGate cfg c
      · by_cases hid : candId cfg c ∈ st.ids
        · simp only [step, hgc, if_true, hid, if_pos] at h
          exact Or.inl h
        · simp only [step, hgc, if_true, hid, if_neg, not_false_iff] at h
          rcases List.mem_append.mp h with h1 | h1
          · exact Or.inl h1
          · exact Or.inr ⟨c, List.mem_cons_self c rest, hgc, (List.mem_singleton.mp h1)⟩
      · simp only [step, hgc, if_false] at h
        exact Or.inl h
    · exact Or.inr ⟨c', List.mem_cons_of_mem c hc', hg, he⟩

/-- A feed entry that passes the gates is not older than the cutoff. -/
theorem feed_gate_age (cfg : Cfg) (e : FeedEntry) (hg : feed_gate cfg e = true) :
    cutoffT cfg ≤ entry_ts cfg e := by
  simp only [feed_gate, Bool.and_eq_true, Bool.not_eq_true', decide_eq_false_iff_not] at hg
  exact Int.not_lt.mp hg.1.1.2

/-- C6 (amended): every emitted Article comes from a gate-passing
candidate, and when that candidate is a feed entry its resolved
timestamp is at least the cutoff — a feed item strictly older than
`now - max_age_days` never appears in the output, in curated and
non-curated mode alike. Press-page items are not age-checked; their
synthetic timestamps can predate the cutoff (see the counterexample). -/
theorem age_gate_for_feed_items (cfg : Cfg) (feeds : List (Option Feed))
    (pages : List PressPage) (a : Article) (ha : a ∈ output cfg feeds pages) :
    ∃ c ∈ candidates cfg feeds pages, candGate cfg c = true ∧ a = candArticle cfg c ∧
      (∀ f e, c = Cand.feedC f e → cutoffT cfg ≤ ts_key a) := by
  have h1 : a ∈ run_entries cfg feeds pages := by
    have h2 : a ∈ sortDesc (run_entries cfg feeds pages) := List.mem_of_mem_take ha
    exact (List.perm_insertionSort keyGe _).mem_iff.mp h2
  rcases mem_foldl_entries cfg _ _ a h1 with h | ⟨c, hc, hg, he⟩
  · simp at h
  · refine ⟨c, hc, hg, he, ?_⟩
    rintro f e rfl
    have hage := feed_gate_age cfg e (by simpa [candGate] using hg)
    subst he
    simpa [ts_key, mkFeedArticle] using hage

/-- First anchor of the C6 press page. -/
def c6a1 : Anchor :=
  { url := { raw := "https://example.com/presse/a", host := "example.com", path := "/presse/a" }
    text := "First press release" }

/-- Second anchor of the C6 press page: kept at position 1, so its
synthetic timestamp is one minute before `now`. -/
def c6a2 : Anchor :=
  { url := { raw := "https://example.com/presse/b", host := "example.com", path := "/presse/b" }
    text := "Second press release" }

/-- The C6 press page with two keepable anchors. -/
def c6Page : PressPage :=
  { page_url := { raw := "https://example.com/presse", host := "example.com", path := "/presse" }
    domain := "example.com"
    max_items := 30
    href_include := none
    href_exclude := none
    allow_pdf := false
    fetch := some [c6a1, c6a2] }

/-- Configuration of the C6 counterexample run: `max_age_days = 0`, so
the cutoff is `now` itself. -/
def c6Cfg : Cfg :=
  { regs := { gender := none, startup := none, business := none }
    rx_exclude := none
    weights := defaultWeights
    min_score := 2
    max_age_days := 0
    curated_mode := false
    export_limit := 200
    now := 1700000000000000 }

/-- C6 counterexample: with `max_age_days = 0` the second press item's
synthetic timestamp (`now` minus one minute) is strictly older than the
cutoff, yet the item appears in the emitted collection — the age gate is
not applied to press-page items. -/
theorem press_item_older_than_cutoff_emitted :
    mkPressArticle c6Page c6Cfg.now 1 c6a2 ∈ output c6Cfg [] [c6Page] ∧
    ts_key (mkPressArticle c6Page c6Cfg.now 1 c6a2) < cutoffT c6Cfg := by
  exact ⟨by decide, by decide⟩

/-- Witness for the amended C6 theorem at the concrete C6 run. -/
theorem age_gate_for_feed_items_witness :
    ∃ c ∈ candidates c6Cfg [] [c6Page], candGate c6Cfg c = true ∧
      mkPressArticle c6Page c6Cfg.now 1 c6a2 = candArticle c6Cfg c ∧
      (∀ f e, c = Cand.feedC f e →
        cutoffT c6Cfg ≤ ts_key (mkPressArticle c6Page c6Cfg.now 1 c6a2)) :=
  age_gate_for_feed_items c6Cfg [] [c6Page] (mkPressArticle c6Page c6Cfg.now 1 c6a2) (by decide)

/-! ## Claim C3: global dedup, first occurrence wins -/

/-- Once an identity is in the seen-set, the remaining fold adds no
entry with that identity, and the identity stays in the seen-set. -/
theorem foldl_filter_frozen (cfg : Cfg) (cs : List Cand) :
    ∀ (st : St) (h : String), h ∈ st.ids →
      ((List.foldl (step cfg) st cs).entries.filter (fun e => decide (entryId e = h))) =
        st.entries.filter (fun e => decide (entryId e = h)) ∧
      h ∈ (List.foldl (step cfg) st cs).ids := by
  induction cs with
  | nil => exact fun st h hh => ⟨rfl, hh⟩
  | cons c rest ih =>
    intro st h hh
    simp only [List.foldl_cons]
    by_cases hgc : candGate cfg c
    · by_cases hid : candId cfg c ∈ st.ids
      · have hstep : step cfg st c = st := by simp [step, hgc, hid]
        rw [hstep]
        exact ih st h hh
      · have hstep : step cfg st c =
            { ids := candId cfg c :: st.ids
              entries := st.entries ++ [candArticle cfg c] } := by
          simp [step, hgc, hid]
        rw [hstep]
        obtain ⟨hf, hm⟩ := ih { ids := candId cfg c :: st.ids
                                entries := st.entries ++ [candArticle cfg c] }
          h (List.mem_cons_of_mem _ hh)
        refine ⟨?_, hm⟩
        rw [hf]
        have hne : ¬ entryId (candArticle cfg c) = h := by
          intro he
          apply hid
          have h2 : candId cfg c = h := he
          rw [h2]
          exact hh
        have hd0 : decide (entryId (candArticle cfg c) = h) = false := decide_eq_false hne
        simp [List.filter_append, hd0]
    · have hstep : step cfg st c = st := by simp [step, hgc]
      rw [hstep]
      exact ih st h hh

/-- If the candidate at position `i` passes its gate, its identity is
unseen, and no earlier gate-passing candidate shares that identity, then
the fold appends exactly that candidate's Article as the unique entry
with that identity. -/
theorem foldl_filter_first_win (cfg : Cfg) (cs : List Cand) :
    ∀ (st : St) (i : Nat) (hi : i < cs.length),
      (∀ k (hk : k < cs.length), k < i → candGate cfg (cs.get ⟨k, hk⟩) = true →
        candId cfg (cs.get ⟨k, hk⟩) ≠ candId cfg (cs.get ⟨i, hi⟩)) →
      candGate cfg (cs.get ⟨i, hi⟩) = true →
      candId cfg (cs.get ⟨i, hi⟩) ∉ st.ids →
      (List.foldl (step cfg) st cs).entries.filter
          (fun e => decide (entryId e = candId cfg (cs.get ⟨i, hi⟩))) =
        st.entries.filter (fun e => decide (entryId e = candId cfg (cs.get ⟨i, hi⟩))) ++
          [candArticle cfg (cs.get ⟨i, hi⟩)] := by
  induction cs with
  | nil => intro st i hi; exact absurd hi (Nat.not_lt_zero i)
  | cons c rest ih =>
    intro st i hi hfirst hgate hnotin
    match i with
    | 0 =>
      have hc : (c :: rest).get ⟨0, hi⟩ = c := rfl
      rw [hc] at hgate hnotin ⊢
      simp only [List.foldl_cons]
      have hstep : step cfg st c =
          { ids := candId cfg c :: st.ids
            entries := st.entries ++ [candArticle cfg c] } := by
        simp [step, hgate, hnotin]
      rw [hstep]
      obtain ⟨hf, _⟩ := foldl_filter_frozen cfg rest
        { ids := candId cfg c :: st.ids, entries := st.entries ++ [candArticle cfg c] }
        (candId cfg c) (List.mem_cons_self _ _)
      rw [hf]
      have heq : entryId (candArticle cfg c) = candId cfg c := rfl
      simp [List.filter_append, heq]
    | Nat.succ j =>
      have hj : j < rest.length := Nat.lt_of_succ_lt_succ hi
      have hc : (c :: rest).get ⟨j + 1, hi⟩ = rest.get ⟨j, hj⟩ := rfl
      rw [hc] at hgate hnotin ⊢
      simp only [List.foldl_cons]
      have hfirst' : ∀ k (hk : k < rest.length), k < j →
          candGate cfg (rest.get ⟨k, hk⟩) = true →
          candId cfg (rest.get ⟨k, hk⟩) ≠ candId cfg (rest.get ⟨j, hj⟩) := by
        intro k hk hkj hgk
        have hk' : k + 1 < (c :: rest).length := Nat.succ_lt_succ hk
        have := hfirst (k + 1) hk' (Nat.succ_lt_succ hkj)
        rw [show (c :: rest).get ⟨k + 1, hk'⟩ = rest.get ⟨k, hk⟩ from rfl, hc] at this
        exact this hgk
      by_cases hgc : candGate cfg c
      · by_cases hid : candId cfg c ∈ st.ids
        · have hstep : step cfg st c = st := by simp [step, hgc, hid]
          rw [hstep]
          exact ih st j hj hfirst' hgate hnotin
        · have hne : candId cfg c ≠ candId cfg (rest.get ⟨j, hj⟩) := by
            have h0 : (0 : Nat) < (c :: rest).length := Nat.succ_pos _
            have := hfirst 0 h0 (Nat.succ_pos j)
            rw [show (c :: rest).get ⟨0, h0⟩ = c from rfl, hc] at this
            exact this hgc
          have hstep : step cfg st c =
              { ids := candId cfg c :: st.ids
                entries := st.entries ++ [candArticle cfg c] } := by
            simp [step, hgc, hid]
          rw [hstep]
          have hnotin' : candId cfg (rest.get ⟨j, hj⟩) ∉ candId cfg c :: st.ids := by
            intro hmem
            rcases List.mem_cons.mp hmem with heq | hmem2
            · exact hne heq.symm
            · exact hnotin hmem2
          have := ih { ids := candId cfg c :: st.ids
                       entries := st.entries ++ [candArticle cfg c] }
            j hj hfirst' hgate hnotin'
          rw [this]
          have hd : decide (entryId (candArticle cfg c) = candId cfg (rest.get ⟨j, hj⟩)) = false :=
            decide_eq_false hne
          simp only [List.filter_append, List.filter_cons, List.filter_nil, hd,
            Bool.false_eq_true, if_false, List.nil_append, List.append_nil]
      · have hstep : step cfg st c = st := by simp [step, hgc]
        rw [hstep]
        exact ih st j hj hfirst' hgate hnotin

/-- C3: when the candidates at positions `i < j` of the run's candidate
stream carry identical (link, title) — hence one identity hash — both
pass their gates, and no earlier gate-passing candidate shares that
identity, the accumulated entries contain exactly one Article with that
identity, namely the one built from the candidate at position `i`. -/
theorem dedup_first_occurrence_wins (cfg : Cfg) (feeds : List (Option Feed))
    (pages : List PressPage) (i j : Nat)
    (hi : i < (candidates cfg feeds pages).length)
    (hj : j < (candidates cfg feeds pages).length) (hij : i < j)
    (hgi : candGate cfg ((candidates cfg feeds pages).get ⟨i, hi⟩) = true)
    (hgj : candGate cfg ((candidates cfg feeds pages).get ⟨j, hj⟩) = true)
    (hlink : (candArticle cfg ((candidates cfg feeds pages).get ⟨i, hi⟩)).link =
      (candArticle cfg ((candidates cfg feeds pages).get ⟨j, hj⟩)).link)
    (htitle : (candArticle cfg ((candidates cfg feeds pages).get ⟨i, hi⟩)).title =
      (candArticle cfg ((candidates cfg feeds pages).get ⟨j, hj⟩)).title)
    (hfirst : ∀ k (hk : k < (candidates cfg feeds pages).length), k < i →
      candGate cfg ((candidates cfg feeds pages).get ⟨k, hk⟩) = true →
      candId cfg ((candidates cfg feeds pages).get ⟨k, hk⟩) ≠
        candId cfg ((candidates cfg feeds pages).get ⟨i, hi⟩)) :
    (run_entries cfg feeds pages).filter
        (fun e => decide (entryId e = candId cfg ((candidates cfg feeds pages).get ⟨i, hi⟩))) =
      [candArticle cfg ((candidates cfg feeds pages).get ⟨i, hi⟩)] := by
  have h := foldl_filter_first_win cfg (candidates cfg feeds pages)
    { ids := [], entries := [] } i hi hfirst hgi (by simp)
  simpa [run_entries] using h

/-- Configuration for the C3 witness run (curated mode, so both copies
pass the gates). -/
def c3Cfg : Cfg :=
  { regs := { gender := none, startup := none, business := none }
    rx_exclude := none
    weights := defaultWeights
    min_score := 2
    max_age_days := 120
    curated_mode := true
    export_limit := 200
    now := 1700000000000000 }

/-- First copy of the duplicated item. -/
def c3e1 : FeedEntry :=
  { title := "Same story", link := "https://example.com/s", summary := "first copy"
    published_parsed := some 1700000000000000, updated_parsed := none }

/-- Second copy: identical (link, title), different summary. -/
def c3e2 : FeedEntry :=
  { title := "Same story", link := "https://example.com/s", summary := "second copy"
    published_parsed := some 1700000000000000, updated_parsed := none }

/-- The feed carrying both copies. -/
def c3Feed : Feed :=
  { url := "u3", feed_title := "t3", feed_link := "", entries := [c3e1, c3e2] }

/-- Witness for C3 at the concrete duplicated pair (positions 0 and 1). -/
theorem dedup_first_occurrence_wins_witness :
    (run_entries c3Cfg [some c3Feed] []).filter
        (fun e => decide (entryId e =
          candId c3Cfg ((candidates c3Cfg [some c3Feed] []).get ⟨0, by decide⟩))) =
      [candArticle c3Cfg ((candidates c3Cfg [some c3Feed] []).get ⟨0, by decide⟩)] :=
  dedup_first_occurrence_wins c3Cfg [some c3Feed] [] 0 1 (by decide) (by decide)
    (by decide) (by decide) (by decide) (by decide) (by decide)
    (fun k hk hk0 => absurd hk0 (Nat.not_lt_zero k))

/-! ## Claim C9: the press-page extractor heuristics -/

/-- Every anchor kept by the filtering loop passes the per-anchor
filter. -/
theorem press_filter_pass (p : PressPage) (bp : String) :
    ∀ (anchors : List Anchor) (seen : List (String × String)) (a : Anchor),
      a ∈ press_filter p bp seen anchors → press_pass p bp a = true := by
  intro anchors
  induction anchors with
  | nil => intro seen a ha; simp [press_filter] at ha
  | cons b rest ih =>
    intro seen a ha
    by_cases hpb : press_pass p bp b
    · by_cases hkb : (b.url.raw, b.text) ∈ seen
      · simp only [press_filter, hpb, if_true, hkb] at ha
        exact ih _ a ha
      · simp only [press_filter, hpb, if_true, hkb, if_neg, not_false_iff] at ha
        rcases List.mem_cons.mp ha with rfl | h
        · exact hpb
        · exact ih _ a h
    · simp only [press_filter, hpb] at ha
      exact ih _ a ha

/-- An anchor of the page that passes the per-anchor filter has its
(URL, text) pair kept by the filtering loop (possibly represented by an
earlier identical pair, or already recorded in `seen`). -/
theorem press_filter_complete (p : PressPage) (bp : String) :
    ∀ (anchors : List Anchor) (seen : List (String × String)) (a : Anchor),
      a ∈ anchors → press_pass p bp a = true →
      (a.url.raw, a.text) ∈ seen ∨
        ∃ a' ∈ press_filter p bp seen anchors, a'.url.raw = a.url.raw ∧ a'.text = a.text := by
  intro anchors
  induction anchors with
  | nil => intro seen a ha; simp at ha
  | cons b rest ih =>
    intro seen a ha hpa
    rcases List.mem_cons.mp ha with rfl | hmem
    · by_cases hkb : (a.url.raw, a.text) ∈ seen
      · exact Or.inl hkb
      · right
        refine ⟨a, ?_, rfl, rfl⟩
        simp only [press_filter, hpa, if_true, hkb, if_neg, not_false_iff]
        exact List.mem_cons_self _ _
    · by_cases hpb : press_pass p bp b
      · by_cases hkb : (b.url.raw, b.text) ∈ seen
        · rcases ih seen a hmem hpa with h | ⟨a', ha', he⟩
          · exact Or.inl h
          · right
            refine ⟨a', ?_, he⟩
            simp only [press_filter, hpb, if_true, hkb]
            exact ha'
        · rcases ih ((b.url.raw, b.text) :: seen) a hmem hpa with h | ⟨a', ha', he⟩
          · rcases List.mem_cons.mp h with heq | hseen
            · right
              obtain ⟨h1, h2⟩ := Prod.mk.injEq .. ▸ heq
              refine ⟨b, ?_, h1.symm, h2.symm⟩
              simp only [press_filter, hpb, if_true, hkb, if_neg, not_false_iff]
              exact List.mem_cons_self _ _
            · exact Or.inl hseen
          · right
            refine ⟨a', ?_, he⟩
            simp only [press_filter, hpb, if_true, hkb, if_neg, not_false_iff]
            exact List.mem_cons_of_mem _ ha'
      · rcases ih seen a hmem hpa with h | ⟨a', ha', he⟩
        · exact Or.inl h
        · right
          refine ⟨a', ?_, he⟩
          simp only [press_filter, hpb, if_false]
          exact ha'

/-- The stamping loop preserves length. -/
theorem stamp_items_length (p : PressPage) (now : Time) :
    ∀ (l : List Anchor) (i0 : Nat), (stamp_items p now i0 l).length = l.length := by
  intro l
  induction l with
  | nil => intro i0; rfl
  | cons a rest ih => intro i0; simp [stamp_items, ih]

/-- The stamped record at position `i` is built from the anchor at
position `i` with offset index `i0 + i`. -/
theorem stamp_items_get (p : PressPage) (now : Time) :
    ∀ (l : List Anchor) (i0 i : Nat) (hi : i < (stamp_items p now i0 l).length)
      (hl : i < l.length),
      (stamp_items p now i0 l).get ⟨i, hi⟩ = mkPressArticle p now (i0 + i) (l.get ⟨i, hl⟩) := by
  intro l
  induction l with
  | nil => intro i0 i hi hl; exact absurd hl (Nat.not_lt_zero i)
  | cons a rest ih =>
    intro i0 i hi hl
    match i with
    | 0 => rfl
    | Nat.succ k =>
      have hi' : k < (stamp_items p now (i0 + 1) rest).length := by
        have := hi
        simpa [stamp_items, stamp_items_length] using Nat.lt_of_succ_lt_succ this
      have hl' : k < rest.length := Nat.lt_of_succ_lt_succ hl
      have hrec := ih (i0 + 1) k hi' hl'
      have hstep : (stamp_items p now i0 (a :: rest)).get ⟨k + 1, hi⟩ =
          (stamp_items p now (i0 + 1) rest).get ⟨k, hi'⟩ := rfl
      rw [hstep, hrec]
      have harith : i0 + 1 + k = i0 + (k + 1) := by omega
      rw [harith]
      rfl

/-- Every stamped record's title is the text of an anchor of the input
list. -/
theorem stamp_items_mem (p : PressPage) (now : Time) :
    ∀ (l : List Anchor) (i0 : Nat) (x : Article), x ∈ stamp_items p now i0 l →
      ∃ a ∈ l, x.title = a.text := by
  intro l
  induction l with
  | nil => intro i0 x hx; simp [stamp_items] at hx
  | cons a rest ih =>
    intro i0 x hx
    rcases List.mem_cons.mp hx with rfl | h
    · exact ⟨a, List.mem_cons_self _ _, rfl⟩
    · obtain ⟨a', ha', he⟩ := ih (i0 + 1) x h
      exact ⟨a', List.mem_cons_of_mem _ ha', he⟩

/-- C9: for a successfully fetched press page, (i) every produced item
has a title of at least 6 characters (anchors with shorter visible text
are dropped); (ii) an anchor that passes the per-anchor filter — in
particular one whose path matches a configured `href_include` — has its
(URL, text) pair kept by the filtering stage; (iii) the item at 0-based
position `i` of the output receives the synthetic timestamp
`now - i minutes`, so the first kept item gets `published = now` and the
page's displayed order is preserved. -/
theorem press_extractor_heuristics (p : PressPage) (now : Time) (anchors : List Anchor)
    (hf : p.fetch = some anchors) :
    (∀ it ∈ scrape_press_page p now, 6 ≤ it.title.length) ∧
    (∀ a ∈ anchors, press_pass p (pyRstrip p.page_url.path '/') a = true →
      ∃ a' ∈ press_filter p (pyRstrip p.page_url.path '/') [] anchors,
        a'.url.raw = a.url.raw ∧ a'.text = a.text) ∧
    (∀ i (hi : i < (scrape_press_page p now).length),
      ((scrape_press_page p now).get ⟨i, hi⟩).published =
        Pub.iso (now - minuteUs * (i : Int))) := by
  refine ⟨?_, ?_, ?_⟩
  · intro it hit
    simp only [scrape_press_page, hf] at hit
    obtain ⟨a, ha, he⟩ := stamp_items_mem p now _ 0 it hit
    have hpass : press_pass p (pyRstrip p.page_url.path '/') a = true :=
      press_filter_pass p _ _ _ a (List.mem_of_mem_take ha)
    simp only [press_pass, Bool.and_eq_true, decide_eq_true_eq] at hpass
    rw [he]
    exact hpass.1.1.2
  · intro a ha hpa
    rcases press_filter_complete p _ anchors [] a ha hpa with h | h
    · simp at h
    · exact h
  · intro i hi
    have hs : scrape_press_page p now =
        stamp_items p now 0
          ((press_filter p (pyRstrip p.page_url.path '/') [] anchors).take p.max_items) := by
      simp [scrape_press_page, hf]
    have hi2 : i < (stamp_items p now 0
        ((press_filter p (pyRstrip p.page_url.path '/') [] anchors).take p.max_items)).length :=
      hs ▸ hi
    have hl : i < ((press_filter p (pyRstrip p.page_url.path '/') [] anchors).take
        p.max_items).length := by
      rwa [stamp_items_length] at hi2
    rw [List.get_of_eq hs ⟨i, hi⟩, stamp_items_get p now _ 0 i _ hl]
    simp [mkPressArticle]

/-- First scenario anchor: long enough visible text, path under
`/presse/`. -/
def c9a1 : Anchor :=
  { url := { raw := "https://nordicfemalefounders.dk/presse/a"
             host := "nordicfemalefounders.dk"
             path := "/presse/a" }
    text := "Long enough title" }

/-- Second scenario anchor: visible text `Hi` of length 2 < 6. -/
def c9a2 : Anchor :=
  { url := { raw := "https://nordicfemalefounders.dk/presse/b"
             host := "nordicfemalefounders.dk"
             path := "/presse/b" }
    text := "Hi" }

/-- The configured `href_include` pattern `/presse/` as a matcher. -/
def c9inc : Matcher := fun s => strContains s "/presse/"

/-- The scenario press page. -/
def c9Page : PressPage :=
  { page_url := { raw := "https://nordicfemalefounders.dk/presse/pressemeddelelser"
                  host := "nordicfemalefounders.dk"
                  path := "/presse/pressemeddelelser" }
    domain := "nordicfemalefounders.dk"
    max_items := 30
    href_include := some c9inc
    href_exclude := none
    allow_pdf := false
    fetch := some [c9a1, c9a2] }

/-- Witness for C9 at the scenario page: the only produced item is the
first anchor's, stamped `published = now`, and its title is at least 6
characters long. -/
theorem press_extractor_heuristics_witness :
    (6 : Nat) ≤ (mkPressArticle c9Page 1700000000000000 0 c9a1).title.length :=
  (press_extractor_heuristics c9Page 1700000000000000 [c9a1, c9a2] rfl).1
    (mkPressArticle c9Page 1700000000000000 0 c9a1) (by decide)
